import Mathlib

/-!
Verification of `src/style-installer.js` (AMP HTML style installer).

The development shallowly embeds the source file: style elements become
`StyleNode` values carrying an identity, a tag, attributes and text content;
a style root (`cssRoot` in the source) becomes a `CssRoot` record holding its
ordered child list, the per-root style map (`__AMP_CSS_SM`), the optional CSS
transformer (`__AMP_CSS_TR`) and a fresh-id counter standing for
`document.createElement`'s production of new element identities.
DOM collaborators that live outside this source file (`insertAfterOrAtStart`,
`querySelector`, `waitForBody`, `setStyles`, the service locator) are modelled
from the spec's interface descriptions, as marked on each definition.
-/

namespace StyleInstaller

/-- A style element: `id` is the element identity (reference equality in JS),
`tag` the element tag, `attrs` the attribute list (name, value), and
`textContent` the CSS text. -/
structure StyleNode where
  id : Nat
  tag : String
  attrs : List (String × String)
  textContent : String
  deriving DecidableEq, Repr

/-- The per-root style map `__AMP_CSS_SM`: logical key to owned style node. -/
abbrev StyleMap := List (String × StyleNode)

/-- Lookup `styleMap[key]`. -/
def mapGet (m : StyleMap) (k : String) : Option StyleNode :=
  (m.find? (fun e => e.1 == k)).map (fun e => e.2)

/-- Assignment `styleMap[key] = style`. -/
def mapSet (m : StyleMap) (k : String) (v : StyleNode) : StyleMap :=
  (k, v) :: m

/-- Modelled from the spec: the CSS selector match performed by
`cssRoot.querySelector('style[' + key + ']')` — a style element matches the
key when it carries an attribute whose name is the key (presence selector,
e.g. `style[amp-runtime]`) or whose `name=value` rendering is the key
(e.g. `style[amp-extension=foo]`). -/
def matchesSelector (key : String) (n : StyleNode) : Bool :=
  n.tag == "style" && n.attrs.any (fun a => key == a.1 || key == a.1 ++ "=" ++ a.2)

/-- A style root: child list in document order, the lazily-populated style
map, the optional registered CSS transformer, and the next fresh element id. -/
structure CssRoot where
  children : List StyleNode
  styleMap : StyleMap
  transformer : Option (String → String)
  nextId : Nat

/-- The empty style root (a fresh head node with no styles installed). -/
def emptyRoot : CssRoot := ⟨[], [], none, 0⟩

/-- Insert `nw` immediately after the first child whose id is `afterId`
(appending at the end if no child has that id; the source only ever passes
ids of present children). -/
def insertAfterNode (l : List StyleNode) (nw : StyleNode) (afterId : Nat) :
    List StyleNode :=
  match l with
  | [] => [nw]
  | x :: xs =>
    if x.id = afterId then x :: nw :: xs else x :: insertAfterNode xs nw afterId

/-- Modelled from the spec: the DOM insertion primitive
`insertAfterOrAtStart(root, newNode, afterNode)` from `src/dom.js` (not part
of this fragment) — inserts `newNode` immediately after `afterNode`, or as
the first child when `afterNode` is null. -/
def insertAfterOrAtStart (l : List StyleNode) (nw : StyleNode)
    (after : Option StyleNode) : List StyleNode :=
  match after with
  | none => nw :: l
  | some a => insertAfterNode l nw a.id

/-- `getExistingStyleElement(cssRoot, styleMap, key)`: first the in-memory
map, then a `querySelector` over the root's children (adopting a
server-rendered node into the map on a hit). Returns the found node and the
possibly-updated style map. -/
def getExistingStyleElement (children : List StyleNode) (styleMap : StyleMap)
    (key : String) : Option StyleNode × StyleMap :=
  match mapGet styleMap key with
  | some n => (some n, styleMap)
  | none =>
    match children.find? (matchesSelector key) with
    | some n => (some n, mapSet styleMap key n)
    | none => (none, styleMap)

/-- JS truthiness of the optional `ext` string (`null` and `''` are falsy). -/
def extTruthy : Option String → Bool
  | none => false
  | some e => e != ""

/-- The `isExtCss` test of `insertStyleElement` (line 139):
`!isRuntimeCss && (ext && ext != 'amp-custom' && ext != 'amp-keyframes')`. -/
def isExtCssOf (isRuntimeCss : Bool) (ext : Option String) : Bool :=
  !isRuntimeCss &&
    (extTruthy ext && ext.getD "" != "amp-custom" && ext.getD "" != "amp-keyframes")

/-- The logical key of `insertStyleElement` (lines 141-143): `'amp-runtime'`,
`'amp-extension=<ext>'`, or null. -/
def styleKey (isRuntimeCss : Bool) (ext : Option String) : Option String :=
  if isRuntimeCss then some "amp-runtime"
  else if isExtCssOf isRuntimeCss ext then some ("amp-extension=" ++ ext.getD "")
  else none

/-- The creation half of `insertStyleElement` (lines 153-176): create the
style element with the given text, tag it per role, pick `afterElement`
(null for runtime CSS, the existing runtime node — asserted present — for
extension CSS, the current last child otherwise), insert it, and record it
in the style map when the logical key is non-null. `none` models the
`dev().assertElement` throw. -/
def insertNewStyleElement (root : CssRoot) (cssText : String)
    (isRuntimeCss : Bool) (ext : Option String) : Option (StyleNode × CssRoot) :=
  if isRuntimeCss then
    let style : StyleNode := ⟨root.nextId, "style", [("amp-runtime", "")], cssText⟩
    some (style,
      { root with
          children := insertAfterOrAtStart root.children style none,
          styleMap := mapSet root.styleMap "amp-runtime" style,
          nextId := root.nextId + 1 })
  else if isExtCssOf isRuntimeCss ext then
    let style : StyleNode :=
      ⟨root.nextId, "style", [("amp-extension", ext.getD "")], cssText⟩
    match getExistingStyleElement root.children root.styleMap "amp-runtime" with
    | (some runtimeNode, sm) =>
      some (style,
        { root with
            children := insertAfterOrAtStart root.children style (some runtimeNode),
            styleMap := mapSet sm ("amp-extension=" ++ ext.getD "") style,
            nextId := root.nextId + 1 })
    | (none, _) => none
  else
    let style : StyleNode :=
      ⟨root.nextId, "style",
        if extTruthy ext then [(ext.getD "", "")] else [], cssText⟩
    some (style,
      { root with
          children := insertAfterOrAtStart root.children style
            root.children.getLast?,
          nextId := root.nextId + 1 })

/-- `insertStyleElement(cssRoot, cssText, isRuntimeCss, ext)` (lines
133-177): check whether a node for the logical key has already been created
or discovered, else create a new one via `insertNewStyleElement`. -/
def insertStyleElement (root : CssRoot) (cssText : String)
    (isRuntimeCss : Bool) (ext : Option String) : Option (StyleNode × CssRoot) :=
  match styleKey isRuntimeCss ext with
  | some k =>
    match getExistingStyleElement root.children root.styleMap k with
    | (some existing, sm) => some (existing, { root with styleMap := sm })
    | (none, sm) =>
      insertNewStyleElement { root with styleMap := sm } cssText isRuntimeCss ext
  | none => insertNewStyleElement root cssText isRuntimeCss ext

/-- `installCssTransformer(cssRoot, transformer)` (lines 207-209). -/
def installCssTransformer (root : CssRoot) (tr : String → String) : CssRoot :=
  { root with transformer := some tr }

/-- `maybeTransform(cssRoot, cssText)` (lines 218-221). -/
def maybeTransform (root : CssRoot) (cssText : String) : String :=
  match root.transformer with
  | some tr => tr cssText
  | none => cssText

/-- The `opt_ext || null` coercion: an empty string becomes null. -/
def orNull : Option String → Option String
  | none => none
  | some s => if s = "" then none else some s

/-- `styleLoaded(doc, style)` (lines 313-322): the document's active
stylesheet list, given by the ids of the sheets' owner nodes, contains the
style element. -/
def styleLoaded (sheets : List Nat) (style : StyleNode) : Bool :=
  sheets.contains style.id

/-- The polling interval of the readiness poller: the literal `4` passed to
`setInterval` (lines 73 and 119). -/
def pollIntervalMs : Nat := 4

/-- Outcome of the synchronous part of an install entry point: the returned
style element, the updated root, whether the callback fired synchronously,
and whether a polling interval was created. -/
structure InstallOut where
  style : StyleNode
  root : CssRoot
  syncCb : Bool
  pollStarted : Bool

/-- The shared callback wiring of both install entry points (lines 56-74 and
103-120): with a callback, fire synchronously when `styleLoaded` already
holds, else start the `setInterval` poll. -/
def installCallbackStep (style : StyleNode) (root : CssRoot) (hasCb : Bool)
    (sheets : List Nat) : InstallOut :=
  if hasCb then
    if styleLoaded sheets style then ⟨style, root, true, false⟩
    else ⟨style, root, false, true⟩
  else ⟨style, root, false, false⟩

/-- `installStylesForDoc(ampdoc, cssText, cb, opt_isRuntimeCss, opt_ext)`
(lines 47-76): `root` is `ampdoc.getHeadNode()`, `sheets` the active
stylesheet list of `ampdoc.getRootNode()`, `hasCb` whether `cb` was passed.
The CSS text is run through `maybeTransform` before insertion. -/
def installStylesForDoc (root : CssRoot) (cssText : String) (hasCb : Bool)
    (optIsRuntimeCss : Option Bool) (optExt : Option String)
    (sheets : List Nat) : Option InstallOut :=
  match insertStyleElement root (maybeTransform root cssText)
      (optIsRuntimeCss.getD false) (orNull optExt) with
  | none => none
  | some (style, root₁) => some (installCallbackStep style root₁ hasCb sheets)

/-- `installStylesLegacy(doc, cssText, cb, opt_isRuntimeCss, opt_ext)`
(lines 95-122): `root` is `doc.head`; the CSS text is passed to
`insertStyleElement` as-is (no `maybeTransform`). -/
def installStylesLegacy (root : CssRoot) (cssText : String) (hasCb : Bool)
    (optIsRuntimeCss : Option Bool) (optExt : Option String)
    (sheets : List Nat) : Option InstallOut :=
  match insertStyleElement root cssText
      (optIsRuntimeCss.getD false) (orNull optExt) with
  | none => none
  | some (style, root₁) => some (installCallbackStep style root₁ hasCb sheets)

/-- State of one readiness poll: whether the interval timer is live and
whether the callback has fired. -/
structure PollState where
  timerActive : Bool
  cbFired : Bool
  deriving DecidableEq, Repr

/-- The synchronous check of the poller (lines 63-68): fire at once when
ready, otherwise create the interval. `ready0` is `styleLoaded` at call
time. -/
def pollInit (ready0 : Bool) : PollState :=
  if ready0 then ⟨false, true⟩ else ⟨true, false⟩

/-- One `setInterval` tick (lines 68-73): a tick only happens while the
timer is live; when the style is now loaded, clear the interval and fire the
callback. -/
def pollTick (s : PollState) (readyNow : Bool) : PollState :=
  if s.timerActive && readyNow then ⟨false, true⟩ else s

/-- The poller after `n` ticks, where `ready i` is `styleLoaded` at check
`i` (check `0` is the synchronous one; tick `i` happens `pollIntervalMs * i`
time units after the call). -/
def pollRun (ready : Nat → Bool) : Nat → PollState
  | 0 => pollInit (ready 0)
  | n + 1 => pollTick (pollRun ready n) (ready (n + 1))

end StyleInstaller

namespace StyleInstaller

/-! ### Visibility coordinator (`makeBodyVisible` and friends) -/

/-- Observable calls made on the collaborators of `makeBodyVisible`. -/
inductive Effect where
  | applyStyles (props : List (String × String))
  | renderStarted
  | schedulePass (priority : Nat) (relayoutAll : Bool)
  | rethrowAsync (tag : String)
  | perfTick (label : String)
  | perfFlush
  deriving DecidableEq, Repr

/-- The per-window state touched by the visibility coordinator: the
`__AMP_BODY_VISIBLE` sentinel, the styles set on `doc.body`, and the log of
collaborator calls. -/
structure WinState where
  bodyVisibleSentinel : Bool
  bodyStyles : List (String × String)
  effects : List Effect
  deriving DecidableEq, Repr

/-- Environment of one `makeBodyVisible` run: whether the body exists at
call time (so `waitForBody` invokes its callback synchronously), whether the
`waitForBody` step itself throws, whether calling `waitForServices` throws
synchronously, and whether the `renderStarted` and performance collaborators
throw (both are wrapped in try/catch by the source). -/
structure Env where
  bodyAvailable : Bool
  waitForBodyThrows : Bool
  waitForServicesCallThrows : Bool
  renderStartedThrows : Bool
  perfThrows : Bool

/-- Update one style property on an element's style set. -/
def setStyleProp (styles : List (String × String)) (k v : String) :
    List (String × String) :=
  if styles.any (fun p => p.1 == k) then
    styles.map (fun p => if p.1 == k then (k, v) else p)
  else styles ++ [(k, v)]

/-- Modelled from the spec: the style-property setter `setStyles(element,
props)` from `src/style.js` (not part of this fragment) — applies a mapping
of CSS property names to values onto the element. -/
def setStylesOn (styles props : List (String × String)) :
    List (String × String) :=
  props.foldl (fun acc p => setStyleProp acc p.1 p.2) styles

/-- The style properties applied by `set` (lines 240-244): opacity 1,
visibility visible, animation none. -/
def visibleStyles : List (String × String) :=
  [("opacity", "1"), ("visibility", "visible"), ("animation", "none")]

/-- `renderStartedNoInline(doc)` (lines 287-295): notify the resources
collaborator that rendering started; any failure is swallowed. -/
def renderStartedNoInline (env : Env) (w : WinState) : WinState :=
  if env.renderStartedThrows then w
  else { w with effects := w.effects ++ [Effect.renderStarted] }

/-- The `set` closure of `makeBodyVisible` (lines 238-246): set the
sentinel, apply the visible styles on the body, notify render-started. -/
def setVisible (env : Env) (w : WinState) : WinState :=
  renderStartedNoInline env
    { w with
        bodyVisibleSentinel := true,
        bodyStyles := setStylesOn w.bodyStyles visibleStyles,
        effects := w.effects ++ [Effect.applyStyles visibleStyles] }

/-- Result of the `waitForBody` callback (lines 248-272): the window state,
whether a services promise is now pending, and the tag of a synchronously
thrown error if any (thrown errors unwind with the state mutations kept). -/
structure BodyCbOut where
  w : WinState
  pendingServices : Bool
  thrown : Option String

/-- The callback handed to `waitForBody` (lines 248-272): re-check the
sentinel, set it, then either attach the services promise chain or apply the
visible transition at once. -/
def bodyCallback (env : Env) (waitForServicesFlag : Bool) (w : WinState) :
    BodyCbOut :=
  if w.bodyVisibleSentinel then ⟨w, false, none⟩
  else
    let w₁ := { w with bodyVisibleSentinel := true }
    if waitForServicesFlag then
      if env.waitForServicesCallThrows then ⟨w₁, false, some "waitForServices"⟩
      else ⟨w₁, true, none⟩
    else ⟨setVisible env w₁, false, none⟩

/-- Result of the synchronous part of `makeBodyVisible`: the window state,
whether a services promise is pending, and whether a body wait is pending
(body not yet available). -/
structure MbvOut where
  w : WinState
  pendingServices : Bool
  pendingBody : Bool
  deriving Repr

/-- `makeBodyVisible(doc, opt_waitForServices)` (lines 232-281), synchronous
part. The `dev().assert(doc.defaultView)` precondition is what lets the
caller hand us the window state `w`. `waitForBody` is modelled from the
spec: it invokes the callback synchronously when the body already exists,
else registers it. A throw from the `try` block runs the catch: force
`set()` and rethrow the error asynchronously. -/
def makeBodyVisible (env : Env) (waitForServicesFlag : Bool) (w : WinState) :
    MbvOut :=
  if w.bodyVisibleSentinel then ⟨w, false, false⟩
  else if env.waitForBodyThrows then
    let w₁ := setVisible env w
    ⟨{ w₁ with effects := w₁.effects ++ [Effect.rethrowAsync "waitForBody"] },
      false, false⟩
  else if env.bodyAvailable then
    match bodyCallback env waitForServicesFlag w with
    | ⟨w₁, pend, none⟩ => ⟨w₁, pend, false⟩
    | ⟨w₁, _, some tag⟩ =>
      let w₂ := setVisible env w₁
      ⟨{ w₂ with effects := w₂.effects ++ [Effect.rethrowAsync tag] },
        false, false⟩
  else ⟨w, false, true⟩

/-- `bodyAlwaysVisible(win)` (lines 302-304): directly set the sentinel. -/
def bodyAlwaysVisible (w : WinState) : WinState :=
  { w with bodyVisibleSentinel := true }

/-- Settlement of the pending services promise chain (lines 254-268):
`.catch` reports a rejection asynchronously and resolves to the empty list;
`.then` applies `set()`, requests a relayout pass when any services were
waited on, and best-effort ticks and flushes the performance collaborator. -/
def settleServices (env : Env) (w : WinState)
    (result : Except String (List String)) : WinState :=
  let caught : WinState × List String :=
    match result with
    | Except.error reason =>
      ({ w with effects := w.effects ++ [Effect.rethrowAsync reason] }, [])
    | Except.ok services => (w, services)
  let w₁ := setVisible env caught.1
  let w₂ :=
    if caught.2.length > 0 then
      { w₁ with effects := w₁.effects ++ [Effect.schedulePass 1 true] }
    else w₁
  if env.perfThrows then w₂
  else { w₂ with effects := w₂.effects ++ [Effect.perfTick "mbv", Effect.perfFlush] }

/-! ### Sequences of install calls, invariants, and concrete instances -/

/-- One call to `insertStyleElement` with its three data arguments. -/
structure InstallCall where
  cssText : String
  isRuntimeCss : Bool
  ext : Option String

/-- Run a sequence of `insertStyleElement` calls on one root; `none` when
any call hits the fail-fast assertion. -/
def runInstalls (root : CssRoot) : List InstallCall → Option CssRoot
  | [] => some root
  | c :: cs =>
    match insertStyleElement root c.cssText c.isRuntimeCss c.ext with
    | none => none
    | some (_, r) => runInstalls r cs

/-- Invariant of roots built by install sequences from an empty root: the
style map's runtime entry agrees with the first child matching the runtime
selector, and when a runtime node is present it is the first child and
carries exactly the runtime marker attribute. -/
structure RuntimeInv (root : CssRoot) : Prop where
  rt_map : mapGet root.styleMap "amp-runtime"
    = root.children.find? (matchesSelector "amp-runtime")
  rt_head : ∀ n, root.children.find? (matchesSelector "amp-runtime") = some n →
    root.children.head? = some n
  rt_attrs : ∀ n, root.children.find? (matchesSelector "amp-runtime") = some n →
    n.attrs = [("amp-runtime", "")]

/-- Concrete node produced by the first runtime install on the empty root. -/
def c1node : StyleNode := ⟨0, "style", [("amp-runtime", "")], "a"⟩

/-- Concrete root after the first runtime install on the empty root. -/
def c1root : CssRoot := ⟨[c1node], [("amp-runtime", c1node)], none, 1⟩

/-- A concrete CSS transformer to exhibit the two install paths' behavior. -/
def sampleTransformer : String → String := fun s => s ++ "-transformed"

/-- A document head with a registered transformer and no styles yet. -/
def legacyHead : CssRoot := installCssTransformer emptyRoot sampleTransformer

/-- Concrete root after installing runtime CSS then one extension CSS on
the empty root. -/
def c2root : CssRoot :=
  ⟨[⟨0, "style", [("amp-runtime", "")], "r"⟩,
    ⟨1, "style", [("amp-extension", "amp-foo")], "x"⟩],
   [("amp-extension=amp-foo", ⟨1, "style", [("amp-extension", "amp-foo")], "x"⟩),
    ("amp-runtime", ⟨0, "style", [("amp-runtime", "")], "r"⟩)],
   none, 2⟩

end StyleInstaller

namespace StyleInstaller

/-! ### Helper lemmas about the map and insertion primitives -/

theorem mapGet_mapSet (m : StyleMap) (k k' : String) (v : StyleNode) :
    mapGet (mapSet m k v) k' = if k' = k then some v else mapGet m k' := by
  by_cases h : k' = k
  · simp [mapGet, mapSet, List.find?_cons, h]
  · have hb : (k == k') = false := beq_eq_false_iff_ne.mpr (Ne.symm h)
    simp [mapGet, mapSet, List.find?_cons, h, hb]

theorem insertAfterNode_perm (l : List StyleNode) (nw : StyleNode) (aid : Nat) :
    (insertAfterNode l nw aid).Perm (nw :: l) := by
  induction l with
  | nil => simp [insertAfterNode]
  | cons x xs ih =>
    by_cases h : x.id = aid
    · simpa [insertAfterNode, h] using List.Perm.swap nw x xs
    · simp only [insertAfterNode, h, if_neg]
      exact (ih.cons x).trans (List.Perm.swap nw x xs)

theorem insertAfterNode_head? (l : List StyleNode) (nw : StyleNode) (aid : Nat)
    (h : l ≠ []) : (insertAfterNode l nw aid).head? = l.head? := by
  cases l with
  | nil => exact absurd rfl h
  | cons x xs => by_cases hx : x.id = aid <;> simp [insertAfterNode, hx]

theorem find?_insertAfterNode (p : StyleNode → Bool) (l : List StyleNode)
    (nw : StyleNode) (aid : Nat) (h : p nw = false) :
    (insertAfterNode l nw aid).find? p = l.find? p := by
  induction l with
  | nil => simp [insertAfterNode, List.find?, h]
  | cons x xs ih =>
    by_cases hx : x.id = aid <;> cases hp : p x <;>
      simp [insertAfterNode, hx, List.find?_cons, hp, h, ih]

theorem insertAfterNode_cons_self (x : StyleNode) (xs : List StyleNode)
    (nw : StyleNode) : insertAfterNode (x :: xs) nw x.id = x :: nw :: xs := by
  simp [insertAfterNode]

theorem find?_insertAfterOrAtStart (p : StyleNode → Bool) (l : List StyleNode)
    (nw : StyleNode) (after : Option StyleNode) (h : p nw = false) :
    (insertAfterOrAtStart l nw after).find? p = l.find? p := by
  cases after with
  | none =>
    simp only [insertAfterOrAtStart]
    rw [List.find?_cons_of_neg _ (by simp [h])]
  | some a => exact find?_insertAfterNode p l nw a.id h

theorem insertAfterNode_getLast (l : List StyleNode) (nw a : StyleNode)
    (hn : (l.map StyleNode.id).Nodup) (hl : l.getLast? = some a) :
    insertAfterNode l nw a.id = l ++ [nw] := by
  induction l with
  | nil => simp at hl
  | cons x xs ih =>
    cases xs with
    | nil =>
      simp only [List.getLast?_singleton, Option.some.injEq] at hl
      subst hl
      simp [insertAfterNode]
    | cons y ys =>
      have hl' : (y :: ys).getLast? = some a := by
        simpa [List.getLast?_cons_cons] using hl
      have ha : a ∈ y :: ys := List.mem_of_mem_getLast? (hl' ▸ rfl)
      have hx : ¬ x.id = a.id := by
        intro he
        have hmem : a.id ∈ (y :: ys).map StyleNode.id :=
          List.mem_map_of_mem _ ha
        have := (List.nodup_cons.mp hn).1
        exact this (he ▸ hmem)
      have hnd' : ((y :: ys).map StyleNode.id).Nodup :=
        (List.nodup_cons.mp hn).2
      have hstep : insertAfterNode (x :: y :: ys) nw a.id
          = x :: insertAfterNode (y :: ys) nw a.id := by
        simp [insertAfterNode, hx]
      rw [List.cons_append, hstep, ih hnd' hl']

/-! ### Facts about selector matching of the created nodes -/

theorem ext_key_ne_runtime (e : String) :
    ("amp-extension=" ++ e) ≠ "amp-runtime" := by
  intro h
  have h2 := congrArg String.length h
  rw [String.length_append] at h2
  have h3 : "amp-extension=".length = 14 := by rfl
  have h4 : "amp-runtime".length = 11 := by rfl
  omega

theorem matchesSelector_runtime_self (i : Nat) (t : String) :
    matchesSelector "amp-runtime" ⟨i, "style", [("amp-runtime", "")], t⟩ = true := by
  simp [matchesSelector]

theorem matchesSelector_ext_self (e : String) (i : Nat) (t : String) :
    matchesSelector ("amp-extension=" ++ e)
      ⟨i, "style", [("amp-extension", e)], t⟩ = true := by
  have h : ("amp-extension" : String) ++ "=" = "amp-extension=" := by decide
  simp [matchesSelector, h]

theorem matchesSelector_runtime_extNode (e : String) (i : Nat) (t : String) :
    matchesSelector "amp-runtime" ⟨i, "style", [("amp-extension", e)], t⟩ = false := by
  have h : ("amp-extension" : String) ++ "=" = "amp-extension=" := by decide
  simp only [matchesSelector, List.any_cons, List.any_nil, h]
  simp only [Bool.or_false, Bool.and_eq_false_iff, Bool.or_eq_false_iff]
  refine Or.inr ⟨?_, ?_⟩
  · decide
  · rw [beq_eq_false_iff_ne]
    exact fun hcontra => ext_key_ne_runtime e hcontra.symm

theorem matchesSelector_extKey_runtimeNode (e : String) (i : Nat) (t : String) :
    matchesSelector ("amp-extension=" ++ e)
      ⟨i, "style", [("amp-runtime", "")], t⟩ = false := by
  simp only [matchesSelector, List.any_cons, List.any_nil]
  simp only [Bool.or_false, Bool.and_eq_false_iff, Bool.or_eq_false_iff]
  refine Or.inr ⟨?_, ?_⟩
  · rw [beq_eq_false_iff_ne]
    intro hcontra
    have h2 := congrArg String.length hcontra
    rw [String.length_append] at h2
    have h3 : "amp-extension=".length = 14 := by rfl
    have h4 : "amp-runtime".length = 11 := by rfl
    omega
  · rw [beq_eq_false_iff_ne]
    intro hcontra
    have h2 := congrArg String.length hcontra
    rw [String.length_append] at h2
    have h3 : "amp-extension=".length = 14 := by rfl
    have h4 : ("amp-runtime" ++ "=" ++ "").length = 12 := by rfl
    omega

theorem matchesSelector_noAttrs (k : String) (i : Nat) (t : String) :
    matchesSelector k ⟨i, "style", [], t⟩ = false := by
  simp [matchesSelector]

theorem matchesSelector_runtime_reserved (e : String) (i : Nat) (t : String)
    (he : e = "amp-custom" ∨ e = "amp-keyframes") :
    matchesSelector "amp-runtime" ⟨i, "style", [(e, "")], t⟩ = false := by
  rcases he with he | he <;> subst he <;> rfl

/-! ### Characterization of the logical key -/

theorem isExtCssOf_true (ext : Option String)
    (h : isExtCssOf false ext = true) :
    extTruthy ext = true ∧ ext.getD "" ≠ "amp-custom" ∧ ext.getD "" ≠ "amp-keyframes" := by
  simp only [isExtCssOf, Bool.not_false, Bool.true_and, Bool.and_eq_true] at h
  refine ⟨h.1.1, ?_, ?_⟩
  · simpa using h.1.2
  · simpa using h.2

theorem isExtCssOf_false_reserved (ext : Option String)
    (h : isExtCssOf false ext = false) (ht : extTruthy ext = true) :
    ext.getD "" = "amp-custom" ∨ ext.getD "" = "amp-keyframes" := by
  simp only [isExtCssOf, Bool.not_false, Bool.true_and, Bool.and_eq_false_iff] at h
  rcases h with h | h
  · rcases h with h | h
    · rw [ht] at h; exact absurd h (by simp)
    · left; simpa using h
  · right; simpa using h

theorem styleKey_elim (isRt : Bool) (ext : Option String) (k : String)
    (h : styleKey isRt ext = some k) :
    (isRt = true ∧ k = "amp-runtime") ∨
      (isRt = false ∧ isExtCssOf false ext = true ∧
        k = "amp-extension=" ++ ext.getD "") := by
  cases isRt with
  | true =>
    simp only [styleKey, if_true] at h
    exact Or.inl ⟨rfl, by injection h with h2; exact h2.symm⟩
  | false =>
    simp only [styleKey, Bool.false_eq_true, if_false] at h
    by_cases hx : isExtCssOf false ext = true
    · rw [if_pos hx] at h
      exact Or.inr ⟨rfl, hx, by injection h with h2; exact h2.symm⟩
    · rw [if_neg hx] at h; exact absurd h (by simp)

/-! ### Inversion lemmas for `insertStyleElement` -/

theorem getExisting_of_mapHit (c : List StyleNode) (m : StyleMap) (key : String)
    (n : StyleNode) (hm : mapGet m key = some n) :
    getExistingStyleElement c m key = (some n, m) := by
  simp [getExistingStyleElement, hm]

theorem getExisting_of_miss (c : List StyleNode) (m : StyleMap) (key : String)
    (hm : mapGet m key = none) (hf : c.find? (matchesSelector key) = none) :
    getExistingStyleElement c m key = (none, m) := by
  simp [getExistingStyleElement, hm, hf]

theorem getExisting_styleMap_cases (c : List StyleNode) (m : StyleMap)
    (key : String) (res : Option StyleNode) (sm : StyleMap)
    (h : getExistingStyleElement c m key = (res, sm)) :
    sm = m ∨ ∃ r, sm = mapSet m key r ∧ res = some r := by
  unfold getExistingStyleElement at h
  cases hm : mapGet m key with
  | some n => rw [hm] at h; exact Or.inl (by injection h with _ h2; exact h2.symm)
  | none =>
    rw [hm] at h
    cases hf : c.find? (matchesSelector key) with
    | some n =>
      rw [hf] at h
      refine Or.inr ⟨n, ?_, ?_⟩
      · injection h with _ h2; exact h2.symm
      · injection h with h1 _; exact h1.symm
    | none => rw [hf] at h; exact Or.inl (by injection h with _ h2; exact h2.symm)

theorem insertStyleElement_cached (root : CssRoot) (css : String) (isRt : Bool)
    (ext : Option String) (k : String) (n : StyleNode)
    (hk : styleKey isRt ext = some k)
    (hmap : mapGet root.styleMap k = some n) :
    insertStyleElement root css isRt ext = some (n, root) := by
  have h1 := getExisting_of_mapHit root.children root.styleMap k n hmap
  simp only [insertStyleElement, hk, h1]

/-- Inversion for the creation path: with a non-null key whose lookup finds
nothing, a successful insert produced a fresh node carrying the key's marker,
the key now maps to it, and the child list gained exactly that node. -/
theorem insertStyleElement_new_inv (root : CssRoot) (css : String)
    (isRt : Bool) (ext : Option String) (k : String) (n : StyleNode)
    (root₂ : CssRoot) (hk : styleKey isRt ext = some k)
    (hmap : mapGet root.styleMap k = none)
    (hfind : root.children.find? (matchesSelector k) = none)
    (hins : insertStyleElement root css isRt ext = some (n, root₂)) :
    n.id = root.nextId ∧ n.textContent = css ∧
    matchesSelector k n = true ∧
    root₂.children.Perm (n :: root.children) ∧
    mapGet root₂.styleMap k = some n ∧
    root₂.nextId = root.nextId + 1 := by
  have h1 := getExisting_of_miss root.children root.styleMap k hmap hfind
  simp only [insertStyleElement, hk, h1] at hins
  rcases styleKey_elim isRt ext k hk with ⟨hrt, hke⟩ | ⟨hrt, hxt, hke⟩
  · subst hrt
    subst hke
    simp only [insertNewStyleElement, if_true] at hins
    injection hins with hins
    injection hins with hn hr
    subst hn; subst hr
    refine ⟨rfl, rfl, matchesSelector_runtime_self _ _, ?_, ?_, rfl⟩
    · exact List.Perm.refl _
    · show mapGet (mapSet root.styleMap "amp-runtime" _) "amp-runtime" = _
      rw [mapGet_mapSet]
      simp
  · subst hrt
    subst hke
    simp only [insertNewStyleElement, Bool.false_eq_true, if_false, hxt,
      if_true] at hins
    rcases hgr : getExistingStyleElement root.children root.styleMap
        "amp-runtime" with ⟨res, sm⟩
    rw [hgr] at hins
    cases res with
    | none => exact absurd hins (by simp)
    | some r =>
      simp only [] at hins
      injection hins with hins
      injection hins with hn hr
      subst hn; subst hr
      refine ⟨rfl, rfl, matchesSelector_ext_self _ _ _, ?_, ?_, rfl⟩
      · exact insertAfterNode_perm _ _ _
      · show mapGet (mapSet sm ("amp-extension=" ++ ext.getD "") _) _ = _
        rw [mapGet_mapSet]
        simp

/-- An insert with a null logical key (neither runtime nor a cacheable
extension) always creates: the fresh node is appended after the current
last child and the style map is untouched. -/
theorem insertStyleElement_nullKey (root : CssRoot) (css : String)
    (ext : Option String) (hk : styleKey false ext = none)
    (hn : (root.children.map StyleNode.id).Nodup) :
    insertStyleElement root css false ext =
      some (⟨root.nextId, "style",
          if extTruthy ext then [(ext.getD "", "")] else [], css⟩,
        { root with
            children := root.children ++
              [⟨root.nextId, "style",
                if extTruthy ext then [(ext.getD "", "")] else [], css⟩],
            nextId := root.nextId + 1 }) := by
  have hxt : isExtCssOf false ext = false := by
    by_contra hc
    rw [Bool.not_eq_false] at hc
    simp [styleKey, hc] at hk
  simp only [insertStyleElement, hk, insertNewStyleElement,
    Bool.false_eq_true, if_false, hxt]
  cases hl : root.children.getLast? with
  | none =>
    have hempty : root.children = [] := by
      cases hc : root.children with
      | nil => rfl
      | cons x xs => rw [hc, List.getLast?_eq_getLast _ (by simp)] at hl; simp at hl
    rw [hempty]
    rfl
  | some a =>
    simp only [insertAfterOrAtStart]
    rw [insertAfterNode_getLast root.children _ a hn hl]

theorem runInstalls_cached_fix (root : CssRoot) (isRt : Bool)
    (ext : Option String) (k : String) (n : StyleNode)
    (hk : styleKey isRt ext = some k)
    (hmap : mapGet root.styleMap k = some n) (cssList : List String) :
    runInstalls root (cssList.map (fun c => ⟨c, isRt, ext⟩)) = some root := by
  induction cssList with
  | nil => rfl
  | cons c cs ih =>
    simp only [List.map_cons, runInstalls,
      insertStyleElement_cached root c isRt ext k n hk hmap]
    exact ih

theorem installCallbackStep_style (s : StyleNode) (r : CssRoot) (cb : Bool)
    (sh : List Nat) : (installCallbackStep s r cb sh).style = s := by
  unfold installCallbackStep
  split
  · split <;> rfl
  · rfl

theorem installCallbackStep_root (s : StyleNode) (r : CssRoot) (cb : Bool)
    (sh : List Nat) : (installCallbackStep s r cb sh).root = r := by
  unfold installCallbackStep
  split
  · split <;> rfl
  · rfl

theorem styleKey_orNull (isRt : Bool) (ext : Option String) :
    styleKey isRt (orNull ext) = styleKey isRt ext := by
  cases ext with
  | none => rfl
  | some e =>
    by_cases he : e = "" <;>
      simp [orNull, he, styleKey, isExtCssOf, extTruthy]

end StyleInstaller

namespace StyleInstaller

/-! ### Claim theorems -/

/-- C1: for every style root and non-null logical key, the first install
creates the key's node (or adopts a server-rendered node carrying the key's
marker) and records it, giving exactly one matching style node under the
root in the creation case; every later call with the same key returns that
node with the root unchanged (over any number of calls), and the `onReady`
callback path still runs (synchronously or by starting the poll). -/
theorem dedup_key_unique (root : CssRoot) (css : String) (isRt : Bool)
    (ext : Option String) (k : String) (n sn : StyleNode) (root₁ : CssRoot)
    (hk : styleKey isRt ext = some k)
    (hmap : mapGet root.styleMap k = none) :
    (root.children.find? (matchesSelector k) = none →
      insertStyleElement root css isRt ext = some (n, root₁) →
      mapGet root₁.styleMap k = some n
      ∧ root₁.children.countP (matchesSelector k) = 1
      ∧ (∀ css₂, insertStyleElement root₁ css₂ isRt ext = some (n, root₁))
      ∧ (∀ cssList : List String, runInstalls root₁
          (cssList.map (fun c => ⟨c, isRt, ext⟩)) = some root₁)
      ∧ (∀ sheets css₂, ∃ out,
          installStylesForDoc root₁ css₂ true (some isRt) ext sheets = some out
          ∧ out.style = n ∧ out.root = root₁
          ∧ (out.syncCb = true ∨ out.pollStarted = true)))
    ∧ (root.children.find? (matchesSelector k) = some sn →
      insertStyleElement root css isRt ext
        = some (sn, { root with styleMap := mapSet root.styleMap k sn })
      ∧ (∀ css₂, insertStyleElement
          { root with styleMap := mapSet root.styleMap k sn } css₂ isRt ext
          = some (sn, { root with styleMap := mapSet root.styleMap k sn }))) := by
  constructor
  · intro hfind hins
    obtain ⟨hid, htext, hmatch, hperm, hmap₁, hnext⟩ :=
      insertStyleElement_new_inv root css isRt ext k n root₁ hk hmap hfind hins
    have hzero : root.children.countP (matchesSelector k) = 0 :=
      List.countP_eq_zero.mpr (List.find?_eq_none.mp hfind)
    refine ⟨hmap₁, ?_, ?_, ?_, ?_⟩
    · rw [hperm.countP_eq, List.countP_cons, hzero, hmatch]
      simp
    · intro css₂
      exact insertStyleElement_cached root₁ css₂ isRt ext k n hk hmap₁
    · intro cssList
      exact runInstalls_cached_fix root₁ isRt ext k n hk hmap₁ cssList
    · intro sheets css₂
      have hcache := insertStyleElement_cached root₁ (maybeTransform root₁ css₂)
        isRt (orNull ext) k n (by rw [styleKey_orNull]; exact hk) hmap₁
      refine ⟨installCallbackStep n root₁ true sheets, ?_, ?_⟩
      · simp only [installStylesForDoc, Option.getD_some, hcache]
      · cases hsl : styleLoaded sheets n <;>
          simp [installCallbackStep, hsl]
  · intro hfind
    have hadopt : getExistingStyleElement root.children root.styleMap k
        = (some sn, mapSet root.styleMap k sn) := by
      simp [getExistingStyleElement, hmap, hfind]
    have hfirst : insertStyleElement root css isRt ext
        = some (sn, { root with styleMap := mapSet root.styleMap k sn }) := by
      simp only [insertStyleElement, hk, hadopt]
    refine ⟨hfirst, ?_⟩
    intro css₂
    exact insertStyleElement_cached _ css₂ isRt ext k sn hk
      (by show mapGet (mapSet root.styleMap k sn) k = some sn
          rw [mapGet_mapSet, if_pos rfl])

/-- Witness for C1 at a concrete input: first runtime install on the empty
root records the node, exactly one matching node exists, and a second call
with the same key returns the same node with the root unchanged. -/
theorem dedup_key_unique_witness :
    mapGet c1root.styleMap "amp-runtime" = some c1node
    ∧ c1root.children.countP (matchesSelector "amp-runtime") = 1
    ∧ insertStyleElement c1root "b" true none = some (c1node, c1root) := by
  have h := (dedup_key_unique emptyRoot "a" true none "amp-runtime" c1node
    c1node c1root rfl rfl).1 rfl rfl
  exact ⟨h.1, h.2.1, h.2.2.1 "b"⟩

/-- C7: installing an extension style (fresh for its key) on a root where no
runtime style node exists — neither recorded in the style map nor
discoverable among the children — hits the fail-fast `dev().assertElement`
on the runtime lookup: `insertStyleElement` raises (modelled as `none`)
instead of falling back to appending the node elsewhere. -/
theorem ext_requires_runtime (root : CssRoot) (css e : String)
    (he1 : e ≠ "") (he2 : e ≠ "amp-custom") (he3 : e ≠ "amp-keyframes")
    (hmap : mapGet root.styleMap ("amp-extension=" ++ e) = none)
    (hfind : root.children.find? (matchesSelector ("amp-extension=" ++ e)) = none)
    (hrtmap : mapGet root.styleMap "amp-runtime" = none)
    (hrtfind : root.children.find? (matchesSelector "amp-runtime") = none) :
    insertStyleElement root css false (some e) = none := by
  have hxt : isExtCssOf false (some e) = true := by
    simp [isExtCssOf, extTruthy, he1, he2, he3]
  have hk : styleKey false (some e) = some ("amp-extension=" ++ e) := by
    simp [styleKey, hxt]
  have h1 := getExisting_of_miss root.children root.styleMap _ hmap hfind
  have h2 := getExisting_of_miss root.children root.styleMap _ hrtmap hrtfind
  simp only [insertStyleElement, hk, h1, insertNewStyleElement,
    Bool.false_eq_true, if_false, hxt, if_true, h2]

/-- Witness for C7: installing extension CSS on the empty root raises. -/
theorem ext_requires_runtime_witness :
    insertStyleElement emptyRoot "x" false (some "amp-foo") = none :=
  ext_requires_runtime emptyRoot "x" "amp-foo" (by decide) (by decide)
    (by decide) rfl rfl rfl rfl

/-- C8: with a null logical key (not runtime, extension name absent or
reserved) every call creates a fresh node appended after the current last
child; the N new nodes carry the N consecutive fresh ids, are pairwise
distinct, none of them reuses a previously inserted node, and the style map
is untouched. -/
theorem nullKey_always_fresh (root : CssRoot) (ext : Option String)
    (hk : styleKey false ext = none)
    (hlt : ∀ m ∈ root.children, m.id < root.nextId)
    (hnd : (root.children.map StyleNode.id).Nodup)
    (cssList : List String) :
    ∃ root', runInstalls root
        (cssList.map (fun c => ⟨c, false, ext⟩)) = some root'
      ∧ ∃ news, root'.children = root.children ++ news
        ∧ news.length = cssList.length
        ∧ news.map StyleNode.id = List.range' root.nextId cssList.length
        ∧ (∀ m ∈ news, m ∉ root.children)
        ∧ (news.map StyleNode.id).Nodup
        ∧ root'.styleMap = root.styleMap := by
  induction cssList generalizing root with
  | nil =>
    exact ⟨root, rfl, [], by simp⟩
  | cons c cs ih =>
    have hstep := insertStyleElement_nullKey root c ext hk hnd
    set n : StyleNode :=
      ⟨root.nextId, "style",
        if extTruthy ext then [(ext.getD "", "")] else [], c⟩ with hn
    set root₂ : CssRoot :=
      { root with
          children := root.children ++ [n],
          nextId := root.nextId + 1 } with hroot₂
    have hlt₂ : ∀ m ∈ root₂.children, m.id < root₂.nextId := by
      intro m hm
      rw [hroot₂] at hm ⊢
      simp only [List.mem_append, List.mem_singleton] at hm
      rcases hm with hm | hm
      · exact Nat.lt_succ_of_lt (hlt m hm)
      · subst hm; exact Nat.lt_succ_self _
    have hnd₂ : (root₂.children.map StyleNode.id).Nodup := by
      rw [hroot₂]
      simp only [List.map_append, List.map_cons, List.map_nil]
      rw [List.nodup_append]
      refine ⟨hnd, List.nodup_singleton _, ?_⟩
      intro x hx hy
      simp only [List.mem_singleton] at hy
      subst hy
      obtain ⟨m, hm, hmid⟩ := List.mem_map.mp hx
      exact absurd (hmid ▸ hlt m hm) (by simp [hn])
    obtain ⟨root', hrun, news, hchl, hlen, hids, hfreshm, hndnews, hsm⟩ :=
      ih root₂ hlt₂ hnd₂
    refine ⟨root', ?_, n :: news, ?_, by simp [hlen], ?_, ?_, ?_, by
      rw [hsm, hroot₂]⟩
    · simp only [List.map_cons, runInstalls, hstep]
      exact hrun
    · rw [hchl, hroot₂]
      simp
    · simp only [List.map_cons, hids, hn, List.length_cons]
      rw [List.range'_succ]
    · intro m hm
      rcases List.mem_cons.mp hm with hm | hm
      · subst hm
        intro hmem
        exact absurd (hlt _ hmem) (by simp [hn])
      · intro hmem
        refine hfreshm m hm ?_
        rw [hroot₂]
        exact List.mem_append_left _ hmem
    · simp only [List.map_cons]
      rw [List.nodup_cons]
      refine ⟨?_, hndnews⟩
      rw [hids]
      intro hmem
      have := List.mem_range'.mp hmem
      simp [hn, hroot₂] at this
      omega

/-- Witness for C8: two uncached installs on the empty root succeed. -/
theorem nullKey_always_fresh_witness :
    (runInstalls emptyRoot
      ((["a", "b"]).map (fun c => ⟨c, false, none⟩))).isSome = true := by
  obtain ⟨root', hrun, _⟩ :=
    nullKey_always_fresh emptyRoot none rfl (by simp [emptyRoot])
      (by simp [emptyRoot]) ["a", "b"]
  rw [hrun]
  rfl

/-! ### C9: the CSS transform and the two entry points -/

theorem styleKey_none_elim (isRt : Bool) (ext : Option String)
    (h : styleKey isRt ext = none) :
    isRt = false ∧ isExtCssOf false ext = false := by
  cases isRt with
  | false =>
    refine ⟨rfl, ?_⟩
    by_contra hc
    rw [Bool.not_eq_false] at hc
    simp [styleKey, hc] at h
  | true => simp [styleKey] at h

theorem getExisting_found_cases (c : List StyleNode) (m : StyleMap)
    (key : String) (ex : StyleNode) (sm : StyleMap)
    (h : getExistingStyleElement c m key = (some ex, sm)) :
    mapGet m key = some ex ∨ ex ∈ c := by
  unfold getExistingStyleElement at h
  cases hm : mapGet m key with
  | some n =>
    rw [hm] at h
    injection h with h1 _
    exact Or.inl h1
  | none =>
    rw [hm] at h
    cases hf : c.find? (matchesSelector key) with
    | some n =>
      rw [hf] at h
      injection h with h1 _
      have h2 : n = ex := Option.some.inj h1
      exact Or.inr (h2 ▸ List.mem_of_find?_eq_some hf)
    | none => rw [hf] at h; exact absurd h (by simp)

theorem insertNewStyleElement_result (root : CssRoot) (t : String)
    (isRt : Bool) (ext : Option String) (n : StyleNode) (r₂ : CssRoot)
    (hins : insertNewStyleElement root t isRt ext = some (n, r₂)) :
    n.id = root.nextId ∧ n.textContent = t := by
  cases isRt with
  | true =>
    simp only [insertNewStyleElement, if_true] at hins
    injection hins with h
    injection h with h1 _
    subst h1
    exact ⟨rfl, rfl⟩
  | false =>
    by_cases hxt : isExtCssOf false ext = true
    · simp only [insertNewStyleElement, Bool.false_eq_true, if_false, hxt,
        if_true] at hins
      rcases hg : getExistingStyleElement root.children root.styleMap
          "amp-runtime" with ⟨res, sm⟩
      rw [hg] at hins
      cases res with
      | none => exact absurd hins (by simp)
      | some r =>
        simp only [] at hins
        injection hins with h
        injection h with h1 _
        subst h1
        exact ⟨rfl, rfl⟩
    · rw [Bool.not_eq_true] at hxt
      simp only [insertNewStyleElement, Bool.false_eq_true, if_false, hxt] at hins
      injection hins with h
      injection h with h1 _
      subst h1
      exact ⟨rfl, rfl⟩

/-- A successful insert either returned a node already known (from the style
map or discovered among the children) or created a fresh node whose text is
exactly the text argument. -/
theorem insertStyleElement_result (root : CssRoot) (t : String) (isRt : Bool)
    (ext : Option String) (n : StyleNode) (r₂ : CssRoot)
    (hins : insertStyleElement root t isRt ext = some (n, r₂)) :
    (∃ k, mapGet root.styleMap k = some n) ∨ n ∈ root.children
      ∨ (n.id = root.nextId ∧ n.textContent = t) := by
  cases hkey : styleKey isRt ext with
  | none =>
    simp only [insertStyleElement, hkey] at hins
    exact Or.inr (Or.inr (insertNewStyleElement_result root t isRt ext n r₂ hins))
  | some k =>
    simp only [insertStyleElement, hkey] at hins
    rcases hg : getExistingStyleElement root.children root.styleMap k
      with ⟨res, sm⟩
    rw [hg] at hins
    cases res with
    | some ex =>
      simp only [] at hins
      injection hins with h
      injection h with h1 _
      rcases getExisting_found_cases root.children root.styleMap k ex sm hg
        with hc | hc
      · exact Or.inl ⟨k, h1 ▸ hc⟩
      · exact Or.inr (Or.inl (h1 ▸ hc))
    | none =>
      rcases getExisting_styleMap_cases root.children root.styleMap k none sm hg
        with hsm | ⟨r, _, hcontra⟩
      · subst hsm
        exact Or.inr (Or.inr
          (insertNewStyleElement_result _ t isRt ext n r₂ hins))
      · exact absurd hcontra (by simp)

/-- C9 (amended): a freshly-created node's text content is
`maybeTransform root css` for the ampdoc-based entry point, but the raw
`css` for the legacy document-based entry point — the legacy path never
applies the root's registered transform. -/
theorem createdNode_text (root : CssRoot) (css : String) (hasCb : Bool)
    (oRt : Option Bool) (oExt : Option String) (sheets : List Nat)
    (hmm : ∀ k m, mapGet root.styleMap k = some m → m ∈ root.children)
    (hlt : ∀ m ∈ root.children, m.id < root.nextId) :
    (∀ out, installStylesForDoc root css hasCb oRt oExt sheets = some out →
      out.style.id = root.nextId →
      out.style.textContent = maybeTransform root css)
    ∧ (∀ out, installStylesLegacy root css hasCb oRt oExt sheets = some out →
      out.style.id = root.nextId →
      out.style.textContent = css) := by
  have hfresh : ∀ (t : String) (n : StyleNode) (r₂ : CssRoot),
      insertStyleElement root t (oRt.getD false) (orNull oExt) = some (n, r₂) →
      n.id = root.nextId → n.textContent = t := by
    intro t n r₂ hins hid
    rcases insertStyleElement_result root t (oRt.getD false) (orNull oExt)
        n r₂ hins with ⟨k, hc⟩ | hc | hc
    · exact absurd (hid ▸ hlt n (hmm k n hc)) (by omega)
    · exact absurd (hid ▸ hlt n hc) (by omega)
    · exact hc.2
  constructor
  · intro out hout hid
    unfold installStylesForDoc at hout
    rcases hins : insertStyleElement root (maybeTransform root css)
        (oRt.getD false) (orNull oExt) with _ | ⟨style, root₁⟩
    · rw [hins] at hout; exact absurd hout (by simp)
    · rw [hins] at hout
      injection hout with hout
      have hstyle : out.style = style := by
        rw [← hout]; exact installCallbackStep_style _ _ _ _
      rw [hstyle] at hid ⊢
      exact hfresh _ style root₁ hins hid
  · intro out hout hid
    unfold installStylesLegacy at hout
    rcases hins : insertStyleElement root css
        (oRt.getD false) (orNull oExt) with _ | ⟨style, root₁⟩
    · rw [hins] at hout; exact absurd hout (by simp)
    · rw [hins] at hout
      injection hout with hout
      have hstyle : out.style = style := by
        rw [← hout]; exact installCallbackStep_style _ _ _ _
      rw [hstyle] at hid ⊢
      exact hfresh _ style root₁ hins hid

/-- Counterexample to C9 as stated: on a root with a registered transform,
the legacy entry point inserts a node whose text is the raw CSS text, not
the transform's output. -/
theorem createdNode_text_cex :
    (installStylesLegacy legacyHead "x" false none none []).map
        (fun out => out.style.textContent) = some "x"
    ∧ maybeTransform legacyHead "x" = "x-transformed"
    ∧ ("x" : String) ≠ "x-transformed" :=
  ⟨rfl, rfl, by decide⟩

/-- Witness for the amended C9: concrete installs on `legacyHead`. -/
theorem createdNode_text_witness :
    (⟨⟨0, "style", [], "x-transformed"⟩,
        ⟨[⟨0, "style", [], "x-transformed"⟩], [], some sampleTransformer, 1⟩,
        false, false⟩ : InstallOut).style.textContent
      = maybeTransform legacyHead "x"
    ∧ (⟨⟨0, "style", [], "x"⟩,
        ⟨[⟨0, "style", [], "x"⟩], [], some sampleTransformer, 1⟩,
        false, false⟩ : InstallOut).style.textContent = "x" := by
  have h := createdNode_text legacyHead "x" false none none []
    (by intro k m hm; simp [legacyHead, installCssTransformer, emptyRoot,
          mapGet] at hm)
    (by intro m hm; simp [legacyHead, installCssTransformer, emptyRoot] at hm)
  exact ⟨h.1 _ rfl rfl, h.2 _ rfl rfl⟩

/-! ### Visibility coordinator claims -/

/-- C3: the visible-state transition side effects run at most once per
window — a first completed `makeBodyVisible` applies them exactly once, a
second call on the same window is a no-op returning the state unchanged,
and after `bodyAlwaysVisible` a `makeBodyVisible` performs no body-style
mutation and no collaborator notification. -/
theorem makeBodyVisible_once (env env₂ : Env) (w : WinState) (wsf₂ : Bool)
    (hsent : w.bodyVisibleSentinel = false)
    (hbody : env.bodyAvailable = true)
    (hnothrow : env.waitForBodyThrows = false) :
    (makeBodyVisible env false w).w = setVisible env w
    ∧ ((makeBodyVisible env false w).w.effects.countP
        (fun e => e == Effect.applyStyles visibleStyles))
      = w.effects.countP (fun e => e == Effect.applyStyles visibleStyles) + 1
    ∧ makeBodyVisible env₂ wsf₂ (makeBodyVisible env false w).w
        = ⟨(makeBodyVisible env false w).w, false, false⟩
    ∧ (bodyAlwaysVisible w).bodyStyles = w.bodyStyles
    ∧ (bodyAlwaysVisible w).effects = w.effects
    ∧ makeBodyVisible env₂ wsf₂ (bodyAlwaysVisible w)
        = ⟨bodyAlwaysVisible w, false, false⟩ := by
  have hrun : makeBodyVisible env false w = ⟨setVisible env w, false, false⟩ := by
    simp [makeBodyVisible, hsent, hbody, hnothrow, bodyCallback, setVisible]
  have hs2 : (setVisible env w).bodyVisibleSentinel = true := by
    cases hrs : env.renderStartedThrows <;>
      simp [setVisible, renderStartedNoInline, hrs]
  refine ⟨by rw [hrun], ?_, ?_, rfl, rfl, ?_⟩
  · rw [hrun]
    cases hrs : env.renderStartedThrows <;>
      simp [setVisible, renderStartedNoInline, hrs, List.countP_append,
        List.countP_cons]
  · rw [hrun]
    simp [makeBodyVisible, hs2]
  · simp [makeBodyVisible, bodyAlwaysVisible]

/-- Witness for C3: concrete second call on an already-visible window is a
no-op. -/
theorem makeBodyVisible_once_witness :
    makeBodyVisible ⟨true, false, false, false, false⟩ false
        (makeBodyVisible ⟨true, false, false, false, false⟩ false
          ⟨false, [], []⟩).w
      = ⟨(makeBodyVisible ⟨true, false, false, false, false⟩ false
          ⟨false, [], []⟩).w, false, false⟩ := by
  have h := makeBodyVisible_once ⟨true, false, false, false, false⟩
    ⟨true, false, false, false, false⟩ ⟨false, [], []⟩ false rfl rfl rfl
  exact h.2.2.1

/-- C5: when a step of the wait pipeline throws before the sentinel is set,
the transition is still forced (sentinel true, visible styles applied), the
error is re-raised asynchronously, and the call returns normally with
nothing left pending. -/
theorem makeBodyVisible_failsafe (env : Env) (w : WinState) (wsf : Bool)
    (hsent : w.bodyVisibleSentinel = false)
    (hthrow : env.waitForBodyThrows = true) :
    (makeBodyVisible env wsf w).w.bodyVisibleSentinel = true
    ∧ (makeBodyVisible env wsf w).w.bodyStyles
        = setStylesOn w.bodyStyles visibleStyles
    ∧ Effect.rethrowAsync "waitForBody" ∈ (makeBodyVisible env wsf w).w.effects
    ∧ Effect.applyStyles visibleStyles ∈ (makeBodyVisible env wsf w).w.effects
    ∧ (makeBodyVisible env wsf w).pendingServices = false
    ∧ (makeBodyVisible env wsf w).pendingBody = false := by
  cases hrs : env.renderStartedThrows <;>
    simp [makeBodyVisible, hsent, hthrow, setVisible, renderStartedNoInline, hrs]

/-- Witness for C5: a concrete throwing run still applies the styles. -/
theorem makeBodyVisible_failsafe_witness :
    (makeBodyVisible ⟨true, true, false, false, false⟩ false
        ⟨false, [], []⟩).w.bodyStyles = setStylesOn [] visibleStyles :=
  (makeBodyVisible_failsafe ⟨true, true, false, false, false⟩
    ⟨false, [], []⟩ false rfl rfl).2.1

/-- C6: a services rejection is reported asynchronously and treated as the
empty list — the visible transition still runs and no relayout pass is
requested; a relayout pass is requested exactly when the resolved list is
non-empty. -/
theorem settleServices_reject (env : Env) (w : WinState) (reason : String)
    (services : List String) (hw : w.effects = []) :
    Effect.rethrowAsync reason
        ∈ (settleServices env w (Except.error reason)).effects
    ∧ (settleServices env w (Except.error reason)).bodyStyles
        = setStylesOn w.bodyStyles visibleStyles
    ∧ (settleServices env w (Except.error reason)).bodyVisibleSentinel = true
    ∧ (∀ p b, Effect.schedulePass p b
        ∉ (settleServices env w (Except.error reason)).effects)
    ∧ (Effect.schedulePass 1 true
        ∈ (settleServices env w (Except.ok services)).effects ↔ services ≠ []) := by
  cases hrs : env.renderStartedThrows <;> cases hp : env.perfThrows <;>
    cases services <;>
    simp [settleServices, setVisible, renderStartedNoInline, hrs, hp, hw]

/-- Witness for C6: a concrete rejected settlement applies the styles and
schedules nothing. -/
theorem settleServices_reject_witness :
    (settleServices ⟨true, false, false, false, false⟩ ⟨true, [], []⟩
        (Except.error "boom")).bodyStyles = setStylesOn [] visibleStyles :=
  (settleServices_reject ⟨true, false, false, false, false⟩ ⟨true, [], []⟩
    "boom" [] rfl).2.1

/-- C10: with services requested and the body available, the sentinel is
set before the asynchronous wait begins while the body styles and effects
are untouched; any further `makeBodyVisible` during the pending wait
returns immediately with the state unchanged, and only the settlement of
the pending promise applies the visible transition. -/
theorem sentinel_before_services (env env₂ : Env) (w : WinState)
    (wsf₂ : Bool) (result : Except String (List String))
    (hsent : w.bodyVisibleSentinel = false)
    (hbody : env.bodyAvailable = true)
    (h1 : env.waitForBodyThrows = false)
    (h2 : env.waitForServicesCallThrows = false) :
    (makeBodyVisible env true w).w.bodyVisibleSentinel = true
    ∧ (makeBodyVisible env true w).pendingServices = true
    ∧ (makeBodyVisible env true w).w.bodyStyles = w.bodyStyles
    ∧ (makeBodyVisible env true w).w.effects = w.effects
    ∧ makeBodyVisible env₂ wsf₂ (makeBodyVisible env true w).w
        = ⟨(makeBodyVisible env true w).w, false, false⟩
    ∧ (settleServices env₂ (makeBodyVisible env true w).w result).bodyStyles
        = setStylesOn w.bodyStyles visibleStyles
    ∧ (settleServices env₂ (makeBodyVisible env true w).w
        result).bodyVisibleSentinel = true := by
  have hrun : makeBodyVisible env true w
      = ⟨{ w with bodyVisibleSentinel := true }, true, false⟩ := by
    simp [makeBodyVisible, hsent, hbody, h1, bodyCallback, h2]
  rw [hrun]
  refine ⟨rfl, rfl, rfl, rfl, ?_, ?_, ?_⟩
  · simp [makeBodyVisible]
  · rcases result with r | svcs
    · cases hrs : env₂.renderStartedThrows <;> cases hp : env₂.perfThrows <;>
        simp [settleServices, setVisible, renderStartedNoInline, hrs, hp]
    · rcases svcs with _ | ⟨s, ss⟩ <;>
        cases hrs : env₂.renderStartedThrows <;> cases hp : env₂.perfThrows <;>
          simp [settleServices, setVisible, renderStartedNoInline, hrs, hp]
  · rcases result with r | svcs
    · cases hrs : env₂.renderStartedThrows <;> cases hp : env₂.perfThrows <;>
        simp [settleServices, setVisible, renderStartedNoInline, hrs, hp]
    · rcases svcs with _ | ⟨s, ss⟩ <;>
        cases hrs : env₂.renderStartedThrows <;> cases hp : env₂.perfThrows <;>
          simp [settleServices, setVisible, renderStartedNoInline, hrs, hp]

/-- Witness for C10: a concrete pending run leaves the styles untouched and
a second call is a no-op. -/
theorem sentinel_before_services_witness :
    (makeBodyVisible ⟨true, false, false, false, false⟩ true
        ⟨false, [], []⟩).pendingServices = true
    ∧ (makeBodyVisible ⟨true, false, false, false, false⟩ true
        ⟨false, [], []⟩).w.effects = [] := by
  have h := sentinel_before_services ⟨true, false, false, false, false⟩
    ⟨true, false, false, false, false⟩ ⟨false, [], []⟩ false
    (Except.error "boom") rfl rfl rfl rfl
  exact ⟨h.2.1, h.2.2.2.1⟩

/-! ### Readiness poller claims -/

theorem pollRun_timer_eq_not_cbFired (ready : Nat → Bool) (n : Nat) :
    (pollRun ready n).timerActive = !(pollRun ready n).cbFired := by
  induction n with
  | zero => cases h : ready 0 <;> simp [pollRun, pollInit, h]
  | succ n ih =>
    cases hc : (pollRun ready n).cbFired <;> cases hr : ready (n + 1) <;>
      simp [pollRun, pollTick, ih, hc, hr]

theorem pollRun_stable (ready : Nat → Bool) (n : Nat)
    (h : (pollRun ready n).cbFired = true) (m : Nat) (hm : n ≤ m) :
    pollRun ready m = pollRun ready n := by
  refine Nat.le_induction rfl ?_ m hm
  intro k hk ih
  have ht : (pollRun ready n).timerActive = false := by
    rw [pollRun_timer_eq_not_cbFired, h]
    rfl
  show pollTick (pollRun ready k) (ready (k + 1)) = pollRun ready n
  rw [ih]
  simp [pollTick, ht]

theorem pollRun_cbFired_ready (ready : Nat → Bool) (n : Nat)
    (h : (pollRun ready n).cbFired = true) :
    ∃ k, k ≤ n ∧ ready k = true := by
  induction n with
  | zero =>
    refine ⟨0, Nat.le_refl 0, ?_⟩
    by_contra hc
    rw [Bool.not_eq_true] at hc
    simp [pollRun, pollInit, hc] at h
  | succ n ih =>
    by_cases hc : (pollRun ready n).cbFired = true
    · obtain ⟨k, hk, hr⟩ := ih hc
      exact ⟨k, Nat.le_succ_of_le hk, hr⟩
    · rw [Bool.not_eq_true] at hc
      by_cases hr : ready (n + 1) = true
      · exact ⟨n + 1, Nat.le_refl _, hr⟩
      · rw [Bool.not_eq_true] at hr
        simp [pollRun, pollTick, hr, hc] at h

theorem pollRun_not_ready (ready : Nat → Bool) (n : Nat)
    (h : ∀ i, i ≤ n → ready i = false) : pollRun ready n = ⟨true, false⟩ := by
  induction n with
  | zero => simp [pollRun, pollInit, h 0 (Nat.le_refl 0)]
  | succ n ih =>
    have ih' := ih (fun i hi => h i (Nat.le_succ_of_le hi))
    simp [pollRun, pollTick, ih', h (n + 1) (Nat.le_refl _)]

theorem pollRun_first_ready (ready : Nat → Bool) (k : Nat)
    (hbefore : ∀ i, i < k → ready i = false) (hk : ready k = true)
    (m : Nat) (hm : k ≤ m) : pollRun ready m = ⟨false, true⟩ := by
  have hfire : pollRun ready k = ⟨false, true⟩ := by
    cases k with
    | zero => simp [pollRun, pollInit, hk]
    | succ j =>
      have hprev : pollRun ready j = ⟨true, false⟩ :=
        pollRun_not_ready ready j (fun i hi => hbefore i (Nat.lt_succ_of_le hi))
      simp [pollRun, hprev, pollTick, hk]
  have hst := pollRun_stable ready k (by rw [hfire]) m hm
  rw [hst, hfire]

/-- C4: with a callback, an already-registered stylesheet fires the
callback synchronously and creates no timer; otherwise a poll is started
(ticking every `pollIntervalMs = 4` units) that re-checks readiness, fires
the callback exactly at the first ready check, cancels the timer at that
moment, never fires before readiness, performs no tick after firing, and
keeps polling forever while the sheet never registers (no retry cap). -/
theorem style_poll_behavior (sheets : Nat → List Nat) (style : StyleNode)
    (root₁ : CssRoot) :
    (styleLoaded (sheets 0) style = true →
      (installCallbackStep style root₁ true (sheets 0)).syncCb = true
      ∧ (installCallbackStep style root₁ true (sheets 0)).pollStarted = false
      ∧ pollRun (fun i => styleLoaded (sheets i) style) 0 = ⟨false, true⟩)
    ∧ (styleLoaded (sheets 0) style = false →
      (installCallbackStep style root₁ true (sheets 0)).syncCb = false
      ∧ (installCallbackStep style root₁ true (sheets 0)).pollStarted = true
      ∧ pollRun (fun i => styleLoaded (sheets i) style) 0 = ⟨true, false⟩)
    ∧ (∀ n, (pollRun (fun i => styleLoaded (sheets i) style) n).cbFired = true →
        ∃ k, k ≤ n ∧ styleLoaded (sheets k) style = true)
    ∧ (∀ n, (pollRun (fun i => styleLoaded (sheets i) style) n).cbFired = true →
        (pollRun (fun i => styleLoaded (sheets i) style) n).timerActive = false)
    ∧ (∀ n, (∀ i, i ≤ n → styleLoaded (sheets i) style = false) →
        pollRun (fun i => styleLoaded (sheets i) style) n = ⟨true, false⟩)
    ∧ (∀ k, (∀ i, i < k → styleLoaded (sheets i) style = false) →
        styleLoaded (sheets k) style = true →
        ∀ m, k ≤ m →
          pollRun (fun i => styleLoaded (sheets i) style) m = ⟨false, true⟩)
    ∧ pollIntervalMs = 4 := by
  refine ⟨?_, ?_, ?_, ?_, ?_, ?_, rfl⟩
  · intro h
    exact ⟨by simp [installCallbackStep, h], by simp [installCallbackStep, h],
      by simp [pollRun, pollInit, h]⟩
  · intro h
    exact ⟨by simp [installCallbackStep, h], by simp [installCallbackStep, h],
      by simp [pollRun, pollInit, h]⟩
  · exact fun n => pollRun_cbFired_ready _ n
  · intro n h
    rw [pollRun_timer_eq_not_cbFired, h]
    rfl
  · exact fun n => pollRun_not_ready _ n
  · exact fun k hb hk m hm => pollRun_first_ready _ k hb hk m hm

/-- Witness for C4: a sheet that registers at the second tick fires the
callback there and the timer is cancelled. -/
theorem style_poll_behavior_witness :
    pollRun (fun i => styleLoaded ((fun j => if 2 ≤ j then [5] else []) i)
      (⟨5, "style", [], ""⟩ : StyleNode)) 3 = ⟨false, true⟩ := by
  have h := style_poll_behavior (fun j => if 2 ≤ j then [5] else [])
    ⟨5, "style", [], ""⟩ emptyRoot
  refine h.2.2.2.2.2.1 2 ?_ ?_ 3 (by omega)
  · intro i hi
    interval_cases i <;> rfl
  · rfl

/-! ### The runtime-ordering invariant (C2) -/

theorem runtimeInv_empty : RuntimeInv emptyRoot :=
  ⟨rfl, by simp [emptyRoot], by simp [emptyRoot]⟩

theorem getExisting_adopt_inv (c : List StyleNode) (m : StyleMap)
    (key : String) (ex : StyleNode) (sm : StyleMap)
    (h : getExistingStyleElement c m key = (some ex, sm)) :
    (mapGet m key = some ex ∧ sm = m)
    ∨ (mapGet m key = none ∧ c.find? (matchesSelector key) = some ex
        ∧ sm = mapSet m key ex) := by
  unfold getExistingStyleElement at h
  cases hm : mapGet m key with
  | some n =>
    rw [hm] at h
    injection h with h1 h2
    exact Or.inl ⟨h1, h2.symm⟩
  | none =>
    rw [hm] at h
    cases hf : c.find? (matchesSelector key) with
    | some n =>
      rw [hf] at h
      injection h with h1 h2
      have h3 : n = ex := Option.some.inj h1
      subst h3
      exact Or.inr ⟨rfl, rfl, h2.symm⟩
    | none => rw [hf] at h; exact absurd h (by simp)

theorem getExisting_none_inv (c : List StyleNode) (m : StyleMap)
    (key : String) (sm : StyleMap)
    (h : getExistingStyleElement c m key = (none, sm)) :
    mapGet m key = none ∧ c.find? (matchesSelector key) = none ∧ sm = m := by
  unfold getExistingStyleElement at h
  cases hm : mapGet m key with
  | some n => rw [hm] at h; exact absurd h (by simp)
  | none =>
    rw [hm] at h
    cases hf : c.find? (matchesSelector key) with
    | some n => rw [hf] at h; exact absurd h (by simp)
    | none =>
      rw [hf] at h
      exact ⟨rfl, rfl, by injection h with _ h2; exact h2.symm⟩

theorem matchesSelector_extKey_of_runtimeAttrs (e : String) (r : StyleNode)
    (hattrs : r.attrs = [("amp-runtime", "")]) :
    matchesSelector ("amp-extension=" ++ e) r = false := by
  simp only [matchesSelector, hattrs, List.any_cons, List.any_nil,
    Bool.or_false]
  rw [Bool.and_eq_false_iff]
  right
  rw [Bool.or_eq_false_iff]
  constructor
  · rw [beq_eq_false_iff_ne]
    exact ext_key_ne_runtime e
  · rw [beq_eq_false_iff_ne]
    intro hcontra
    have h2 := congrArg String.length hcontra
    rw [String.length_append] at h2
    have h3 : "amp-extension=".length = 14 := by rfl
    have h4 : ("amp-runtime" ++ "=" ++ "").length = 12 := by rfl
    omega

theorem matchesSelector_runtime_extAttrs (e : String) (r : StyleNode)
    (hattrs : r.attrs = [("amp-extension", e)]) :
    matchesSelector "amp-runtime" r = false := by
  have h : ("amp-extension" : String) ++ "=" = "amp-extension=" := by decide
  simp only [matchesSelector, hattrs, List.any_cons, List.any_nil,
    Bool.or_false, h]
  rw [Bool.and_eq_false_iff]
  right
  rw [Bool.or_eq_false_iff]
  refine ⟨by decide, ?_⟩
  rw [beq_eq_false_iff_ne]
  exact fun hc => ext_key_ne_runtime e hc.symm

/-- Preservation of the runtime-ordering invariant by one install. -/
theorem runtimeInv_insert (root : CssRoot) (css : String) (isRt : Bool)
    (ext : Option String) (n : StyleNode) (root₂ : CssRoot)
    (hinv : RuntimeInv root)
    (hins : insertStyleElement root css isRt ext = some (n, root₂)) :
    RuntimeInv root₂ := by
  cases hkey : styleKey isRt ext with
  | none =>
    obtain ⟨hrt, hxt⟩ := styleKey_none_elim isRt ext hkey
    subst hrt
    simp only [insertStyleElement, hkey] at hins
    simp only [insertNewStyleElement, Bool.false_eq_true, if_false, hxt] at hins
    injection hins with h
    injection h with h1 h2
    subst h2
    set nd : StyleNode :=
      ⟨root.nextId, "style",
        if extTruthy ext then [(ext.getD "", "")] else [], css⟩ with hnd
    have hmatch : matchesSelector "amp-runtime" nd = false := by
      rw [hnd]
      cases ht : extTruthy ext with
      | false =>
        show matchesSelector "amp-runtime"
          (⟨root.nextId, "style", [], css⟩ : StyleNode) = false
        exact matchesSelector_noAttrs _ _ _
      | true =>
        show matchesSelector "amp-runtime"
          (⟨root.nextId, "style", [(ext.getD "", "")], css⟩ : StyleNode) = false
        exact matchesSelector_runtime_reserved _ _ _
          (isExtCssOf_false_reserved ext hxt ht)
    have hpres := find?_insertAfterOrAtStart (matchesSelector "amp-runtime")
      root.children nd root.children.getLast? hmatch
    refine ⟨?_, ?_, ?_⟩
    · show mapGet root.styleMap "amp-runtime"
        = (insertAfterOrAtStart root.children nd
            root.children.getLast?).find? (matchesSelector "amp-runtime")
      rw [hpres]
      exact hinv.rt_map
    · intro x hx
      simp only [hpres] at hx
      show (insertAfterOrAtStart root.children nd
        root.children.getLast?).head? = some x
      cases hl : root.children.getLast? with
      | none =>
        have hempty : root.children = [] := by
          cases hc : root.children with
          | nil => rfl
          | cons y ys =>
            rw [hc, List.getLast?_eq_getLast _ (by simp)] at hl
            simp at hl
        rw [hempty] at hx
        exact absurd hx (by simp)
      | some a =>
        have hne : root.children ≠ [] := by
          intro hc
          rw [hc] at hl
          exact absurd hl (by simp)
        simp only [insertAfterOrAtStart]
        rw [insertAfterNode_head? _ _ _ hne]
        exact hinv.rt_head x hx
    · intro x hx
      simp only [hpres] at hx
      exact hinv.rt_attrs x hx
  | some k =>
    simp only [insertStyleElement, hkey] at hins
    rcases hg : getExistingStyleElement root.children root.styleMap k
      with ⟨res, sm⟩
    rw [hg] at hins
    cases res with
    | some ex =>
      simp only [] at hins
      injection hins with h
      injection h with h1 h2
      subst h2
      rcases getExisting_adopt_inv root.children root.styleMap k ex sm hg
        with ⟨hmge, hsm⟩ | ⟨hmge, hf, hsm⟩
      · subst hsm
        exact ⟨hinv.rt_map, hinv.rt_head, hinv.rt_attrs⟩
      · subst hsm
        rcases styleKey_elim isRt ext k hkey with ⟨_, hke⟩ | ⟨_, _, hke⟩
        · subst hke
          rw [hinv.rt_map] at hmge
          rw [hmge] at hf
          exact absurd hf (by simp)
        · subst hke
          refine ⟨?_, hinv.rt_head, hinv.rt_attrs⟩
          show mapGet (mapSet root.styleMap _ ex) "amp-runtime" = _
          rw [mapGet_mapSet,
            if_neg (fun hc => ext_key_ne_runtime (ext.getD "") hc.symm)]
          exact hinv.rt_map
    | none =>
      obtain ⟨hmge, hf, hsm⟩ :=
        getExisting_none_inv root.children root.styleMap k sm hg
      subst hsm
      have hins' : insertNewStyleElement root css isRt ext = some (n, root₂) :=
        hins
      rcases styleKey_elim isRt ext k hkey with ⟨hrt, hke⟩ | ⟨hrt, hxt, hke⟩
      · subst hrt
        subst hke
        simp only [insertNewStyleElement, if_true] at hins'
        injection hins' with h
        injection h with h1 h2
        subst h2
        have hm : matchesSelector "amp-runtime"
            (⟨root.nextId, "style", [("amp-runtime", "")], css⟩ : StyleNode)
            = true := matchesSelector_runtime_self _ _
        refine ⟨?_, ?_, ?_⟩
        · show mapGet (mapSet root.styleMap "amp-runtime" _) "amp-runtime" = _
          rw [mapGet_mapSet, if_pos rfl]
          show _ = (insertAfterOrAtStart root.children _ none).find? _
          simp only [insertAfterOrAtStart]
          rw [List.find?_cons_of_pos _ hm]
        · intro x hx
          show (insertAfterOrAtStart root.children _ none).head? = some x
          simp only [insertAfterOrAtStart] at hx ⊢
          rw [List.find?_cons_of_pos _ hm] at hx
          rw [← hx]
          rfl
        · intro x hx
          simp only [insertAfterOrAtStart] at hx
          rw [List.find?_cons_of_pos _ hm] at hx
          rw [← Option.some.inj hx]
      · subst hrt
        subst hke
        simp only [insertNewStyleElement, Bool.false_eq_true, if_false, hxt,
          if_true] at hins'
        rcases hg2 : getExistingStyleElement root.children root.styleMap
            "amp-runtime" with ⟨res2, sm2⟩
        rw [hg2] at hins'
        cases res2 with
        | none => exact absurd hins' (by simp)
        | some r =>
          simp only [] at hins'
          injection hins' with h
          injection h with h1 h2
          subst h2
          set nd : StyleNode :=
            ⟨root.nextId, "style", [("amp-extension", ext.getD "")], css⟩
            with hnd
          rcases getExisting_adopt_inv root.children root.styleMap
              "amp-runtime" r sm2 hg2 with ⟨hmge2, hsm2⟩ | ⟨hmge2, hf2, _⟩
          · subst hsm2
            have hfindr : root.children.find? (matchesSelector "amp-runtime")
                = some r := by rw [← hinv.rt_map]; exact hmge2
            have hheadr : root.children.head? = some r :=
              hinv.rt_head r hfindr
            have hattrsr : r.attrs = [("amp-runtime", "")] :=
              hinv.rt_attrs r hfindr
            have hmr : matchesSelector "amp-runtime" r = true :=
              List.find?_some hfindr
            obtain ⟨rest, hrest⟩ : ∃ rest, root.children = r :: rest := by
              cases hc : root.children with
              | nil => rw [hc] at hheadr; exact absurd hheadr (by simp)
              | cons x xs =>
                rw [hc] at hheadr
                exact ⟨xs, by rw [Option.some.inj hheadr]⟩
            have hchl : insertAfterOrAtStart root.children nd (some r)
                = r :: nd :: rest := by
              simp only [insertAfterOrAtStart, hrest]
              exact insertAfterNode_cons_self _ _ _
            have hfind2 : (r :: nd :: rest).find?
                (matchesSelector "amp-runtime") = some r :=
              List.find?_cons_of_pos _ hmr
            refine ⟨?_, ?_, ?_⟩
            · simp only [hchl, hfind2]
              rw [mapGet_mapSet,
                if_neg (fun hc => ext_key_ne_runtime (ext.getD "") hc.symm)]
              exact hmge2
            · intro x hx
              simp only [hchl, hfind2] at hx
              simp only [hchl]
              rw [← Option.some.inj hx]
              rfl
            · intro x hx
              simp only [hchl, hfind2] at hx
              rw [← Option.some.inj hx]
              exact hattrsr
          · rw [hinv.rt_map] at hmge2
            rw [hmge2] at hf2
            exact absurd hf2 (by simp)

theorem runtimeInv_runInstalls (calls : List InstallCall) (root' : CssRoot)
    (h : runInstalls emptyRoot calls = some root') : RuntimeInv root' := by
  suffices H : ∀ root, RuntimeInv root → runInstalls root calls = some root' →
      RuntimeInv root' from H emptyRoot runtimeInv_empty h
  clear h
  induction calls with
  | nil =>
    intro root hi hr
    injection hr with hr
    exact hr ▸ hi
  | cons c cs ih =>
    intro root hi hr
    rcases hins : insertStyleElement root c.cssText c.isRuntimeCss c.ext
      with _ | ⟨m, r⟩
    · simp only [runInstalls, hins] at hr
      exact absurd hr (by simp)
    · simp only [runInstalls, hins] at hr
      exact ih r (runtimeInv_insert root _ _ _ m r hi hins) hr

/-- C2: after any sequence of installs on an initially-empty root, the
runtime style node, if present, is the first child and every extension
style node sits at a strictly later position; a runtime install always
yields the first-child node, and an extension install (fresh for its key)
is placed immediately after the runtime node. -/
theorem runtime_first_ext_after (calls : List InstallCall) (root' : CssRoot)
    (hrun : runInstalls emptyRoot calls = some root') :
    (∀ r, root'.children.find? (matchesSelector "amp-runtime") = some r →
      root'.children.head? = some r)
    ∧ (∀ e r j x, root'.children.find? (matchesSelector "amp-runtime") = some r →
        root'.children[j]? = some x →
        matchesSelector ("amp-extension=" ++ e) x = true → 0 < j)
    ∧ (∀ css ext n root₂,
        insertStyleElement root' css true ext = some (n, root₂) →
        root₂.children.head? = some n)
    ∧ (∀ css e n root₂ rt rest,
        e ≠ "" → e ≠ "amp-custom" → e ≠ "amp-keyframes" →
        mapGet root'.styleMap ("amp-extension=" ++ e) = none →
        root'.children.find? (matchesSelector ("amp-extension=" ++ e)) = none →
        mapGet root'.styleMap "amp-runtime" = some rt →
        root'.children = rt :: rest →
        insertStyleElement root' css false (some e) = some (n, root₂) →
        root₂.children = rt :: n :: rest) := by
  have hinv := runtimeInv_runInstalls calls root' hrun
  refine ⟨hinv.rt_head, ?_, ?_, ?_⟩
  · intro e r j x hfr hget hmx
    have hhead := hinv.rt_head r hfr
    have hattrs := hinv.rt_attrs r hfr
    cases j with
    | succ j => exact Nat.succ_pos j
    | zero =>
      exfalso
      obtain ⟨rest, hrest⟩ : ∃ rest, root'.children = r :: rest := by
        cases hc : root'.children with
        | nil => rw [hc] at hhead; exact absurd hhead (by simp)
        | cons y ys =>
          rw [hc] at hhead
          exact ⟨ys, by rw [Option.some.inj hhead]⟩
      rw [hrest] at hget
      have hxr : x = r := by
        simp only [List.getElem?_cons_zero] at hget
        exact (Option.some.inj hget).symm
      rw [hxr, matchesSelector_extKey_of_runtimeAttrs e r hattrs] at hmx
      exact absurd hmx (by simp)
  · intro css ext n root₂ hins
    cases hkey : styleKey true ext with
    | none => simp [styleKey] at hkey
    | some k =>
      have hk : k = "amp-runtime" := by
        simp only [styleKey, if_true] at hkey
        exact (Option.some.inj hkey).symm
      subst hk
      simp only [insertStyleElement, hkey] at hins
      rcases hg : getExistingStyleElement root'.children root'.styleMap
          "amp-runtime" with ⟨res, sm⟩
      rw [hg] at hins
      cases res with
      | some ex =>
        simp only [] at hins
        injection hins with h
        injection h with h1 h2
        rcases getExisting_adopt_inv root'.children root'.styleMap
            "amp-runtime" ex sm hg with ⟨hmge, _⟩ | ⟨hmge, hf, _⟩
        · have hfind : root'.children.find? (matchesSelector "amp-runtime")
              = some ex := by rw [← hinv.rt_map]; exact hmge
          have := hinv.rt_head ex hfind
          rw [← h2]
          show root'.children.head? = some n
          rw [this, h1]
        · rw [hinv.rt_map] at hmge
          rw [hmge] at hf
          exact absurd hf (by simp)
      | none =>
        obtain ⟨hmge, hf, hsm⟩ :=
          getExisting_none_inv root'.children root'.styleMap "amp-runtime" sm hg
        subst hsm
        have hins' : insertNewStyleElement root' css true ext
            = some (n, root₂) := hins
        simp only [insertNewStyleElement, if_true] at hins'
        injection hins' with h
        injection h with h1 h2
        rw [← h2]
        show (insertAfterOrAtStart root'.children _ none).head? = some n
        simp only [insertAfterOrAtStart]
        rw [← h1]
        rfl
  · intro css e n root₂ rt rest he1 he2 he3 hmap hfind hmge hrest hins
    have hxt : isExtCssOf false (some e) = true := by
      simp [isExtCssOf, extTruthy, he1, he2, he3]
    have hk : styleKey false (some e) = some ("amp-extension=" ++ e) := by
      simp [styleKey, hxt]
    have h1 := getExisting_of_miss root'.children root'.styleMap _ hmap hfind
    have h2 := getExisting_of_mapHit root'.children root'.styleMap
      "amp-runtime" rt hmge
    simp only [insertStyleElement, hk, h1, insertNewStyleElement,
      Bool.false_eq_true, if_false, hxt, if_true, h2] at hins
    injection hins with h
    injection h with hn hr
    rw [← hr]
    show insertAfterOrAtStart root'.children _ (some rt) = rt :: n :: rest
    simp only [insertAfterOrAtStart, hrest]
    rw [insertAfterNode_cons_self, hn]

/-- Witness for C2: after a concrete runtime-then-extension sequence the
runtime node is the first child. -/
theorem runtime_first_ext_after_witness :
    c2root.children.head?
      = some ⟨0, "style", [("amp-runtime", "")], "r"⟩ := by
  have h := runtime_first_ext_after
    [⟨"r", true, none⟩, ⟨"x", false, some "amp-foo"⟩] c2root rfl
  exact h.1 _ rfl

end StyleInstaller
